import Mathlib

/-!
Verification of the go-ytdown backend core against its specification.

The development shallowly embeds the two verified components of the Go
backend (file `main.go` of the server package):

* the URL canonicalization and redirect resolution engine
  (`canonicalYouTube`, `resolveHTTP`, `resolveYouTubeURL`), and
* the session-scoped progress broadcast hub
  (`handleProgress`, `sendProgress`, `sendError`, the completed-download
  cache and its cleanup sweep).

Go strings are modelled as byte sequences (`List Nat`, each entry a byte
value); `strBytes` converts a Lean string literal via UTF-8 so concrete
test vectors can be written readably.  The pieces of the Go standard
library used by the code (`net/url` parsing, query escaping, `path.Base`,
`strings` helpers) are modelled byte-for-byte after their documented
behaviour in the aspects the code exercises; simplifications are noted in
the doc comments of the corresponding definitions.
-/

namespace GoYtdown

/-- UTF-8 byte sequence of one character (standard encoding arithmetic). -/
def utf8Bytes (c : Char) : List Nat :=
  let n := c.toNat
  if n < 128 then [n]
  else if n < 2048 then [192 + n / 64, 128 + n % 64]
  else if n < 65536 then [224 + n / 4096, 128 + (n / 64) % 64, 128 + n % 64]
  else [240 + n / 262144, 128 + (n / 4096) % 64, 128 + (n / 64) % 64, 128 + n % 64]

/-- Byte sequence of a Lean string literal (UTF-8), the embedding of Go
string literals into the byte-string model. -/
def strBytes (s : String) : List Nat :=
  s.data.foldr (fun c acc => utf8Bytes c ++ acc) []

/-- ASCII letter test on a byte. -/
def isAlphaByte (b : Nat) : Bool :=
  decide ((65 ≤ b ∧ b ≤ 90) ∨ (97 ≤ b ∧ b ≤ 122))

/-- ASCII digit test on a byte. -/
def isDigitByte (b : Nat) : Bool :=
  decide (48 ≤ b ∧ b ≤ 57)

/-- Unreserved bytes of RFC 3986 section 2.3: letters, digits, and the
four marks dash, underscore, dot, tilde.  These are never percent-escaped
by the Go `net/url` escaping routines. -/
def isUnresByte (b : Nat) : Bool :=
  isAlphaByte b || isDigitByte b || decide (b = 45 ∨ b = 95 ∨ b = 46 ∨ b = 126)

/-- Hexadecimal digit test on a byte (both letter cases). -/
def isHexByte (b : Nat) : Bool :=
  isDigitByte b || decide ((65 ≤ b ∧ b ≤ 70) ∨ (97 ≤ b ∧ b ≤ 102))

/-- Value of a hexadecimal digit byte. -/
def hexVal (b : Nat) : Nat :=
  if b ≤ 57 then b - 48 else if b ≤ 70 then b - 55 else b - 87

/-- Upper-case hexadecimal digit byte of a value below 16, as produced by
the Go escaping table. -/
def hexDig (n : Nat) : Nat :=
  if n < 10 then 48 + n else 55 + n

/-- Lower-casing of a host byte string; model of `strings.ToLower`
restricted to ASCII (the hosts the code compares against are ASCII). -/
def toLowerB (s : List Nat) : List Nat :=
  s.map (fun b => if 65 ≤ b ∧ b ≤ 90 then b + 32 else b)

/-- Model of `strings.HasPrefix`. -/
def hasPrefixB (s pre : List Nat) : Bool :=
  pre.isPrefixOf s

/-- Model of `strings.HasSuffix`. -/
def hasSuffixB (s suf : List Nat) : Bool :=
  suf.isSuffixOf s

/-- Model of `strings.TrimPrefix`: drop the leading occurrence when
present, otherwise return the string unchanged. -/
def trimPrefixB (s pre : List Nat) : List Nat :=
  if hasPrefixB s pre then s.drop pre.length else s

/-- Model of `strings.Trim(s, "/")`: remove slash bytes from both ends. -/
def trimSlashes (s : List Nat) : List Nat :=
  ((s.dropWhile (fun b => b == 47)).reverse.dropWhile (fun b => b == 47)).reverse

/-- Model of `strings.Cut`: split at the first occurrence of the byte
`sep`; when the byte is absent the second component is empty. -/
def cutB (sep : Nat) : List Nat → List Nat × List Nat
  | [] => ([], [])
  | b :: rest =>
    if b = sep then ([], rest)
    else
      let r := cutB sep rest
      (b :: r.1, r.2)

/-- Model of `strings.Split` on a single byte separator; the result is
always non-empty and splitting the empty string yields one empty field. -/
def splitByte (sep : Nat) : List Nat → List (List Nat)
  | [] => [[]]
  | b :: rest =>
    match splitByte sep rest with
    | s :: ss => if b = sep then [] :: s :: ss else (b :: s) :: ss
    | [] => [[]]

/-- Model of `path.Base`: strip trailing slashes, then keep the part after
the last remaining slash; empty input gives a dot and an all-slash input
gives a single slash. -/
def pathBase (p : List Nat) : List Nat :=
  if p = [] then [46]
  else
    let p1 := (p.reverse.dropWhile (fun b => b == 47)).reverse
    let base := (p1.reverse.takeWhile (fun b => b != 47)).reverse
    if base = [] then [47] else base

/-- Query-component escaping of one byte, after the Go
`url.QueryEscape` table: unreserved bytes pass, space becomes plus, and
everything else becomes a percent triple with upper-case hex digits.  The
leading reduction modulo 256 makes explicit that Go operates on bytes. -/
def escQueryByte (b : Nat) : List Nat :=
  let c := b % 256
  if isUnresByte c then [c]
  else if c = 32 then [43]
  else [37, hexDig (c / 16), hexDig (c % 16)]

/-- Query-component escaping of a byte string. -/
def escQuery (s : List Nat) : List Nat :=
  s.foldr (fun b acc => escQueryByte b ++ acc) []

/-- Bytes not escaped in the path segment of a rendered URL, after the Go
`shouldEscape` table for path encoding: unreserved bytes plus the
sub-delimiters dollar, ampersand, plus, comma, slash, colon, semicolon,
equals and at. -/
def isPathSafeByte (b : Nat) : Bool :=
  isUnresByte b ||
    decide (b = 36 ∨ b = 38 ∨ b = 43 ∨ b = 44 ∨ b = 47 ∨ b = 58 ∨ b = 59 ∨ b = 61 ∨ b = 64)

/-- Path escaping of one byte (Go path encoding mode). -/
def escPathByte (b : Nat) : List Nat :=
  let c := b % 256
  if isPathSafeByte c then [c] else [37, hexDig (c / 16), hexDig (c % 16)]

/-- Path escaping of a byte string, used when a URL value is rendered. -/
def escPath (s : List Nat) : List Nat :=
  s.foldr (fun b acc => escPathByte b ++ acc) []

/-- Percent-decoding after the Go `unescape` routine: a malformed percent
triple is an error (`none`); the plus byte decodes to a space exactly in
query mode (`pts = true`), as in Go, and all other bytes pass through. -/
def unescape (pts : Bool) : List Nat → Option (List Nat)
  | [] => some []
  | b :: rest =>
    if b = 37 then
      match rest with
      | h :: l :: rest2 =>
        if isHexByte h && isHexByte l then
          (unescape pts rest2).map (fun d => (hexVal h * 16 + hexVal l) :: d)
        else none
      | _ => none
    else if b = 43 then (unescape pts rest).map (fun d => (if pts then 32 else 43) :: d)
    else (unescape pts rest).map (fun d => b :: d)

/-- One segment of a query string, after the loop body of the Go
`url.ParseQuery`: segments containing a semicolon are dropped, empty
segments are dropped, the segment is cut at the first equals byte and both
halves are query-unescaped; a failing unescape drops the pair. -/
def parsePair (seg : List Nat) : Option (List Nat × List Nat) :=
  if 59 ∈ seg then none
  else if seg = [] then none
  else
    let kv := cutB 61 seg
    match unescape true kv.1, unescape true kv.2 with
    | some k, some v => some (k, v)
    | _, _ => none

/-- Model of `url.ParseQuery` with the error ignored, as in the `Query`
method used by the code: split on ampersands, keep the well-formed pairs
in order of occurrence. -/
def parseQuery (q : List Nat) : List (List Nat × List Nat) :=
  (splitByte 38 q).filterMap parsePair

/-- Model of `url.Values.Get`: first value recorded for the key, empty
when the key is absent. -/
def valsGet (vs : List (List Nat × List Nat)) (k : List Nat) : List Nat :=
  match vs.find? (fun p => p.1 == k) with
  | some p => p.2
  | none => []

/-- Byte-wise lexicographic order used when the Go `url.Values.Encode`
sorts its keys. -/
def lexLeB : List Nat → List Nat → Bool
  | [], _ => true
  | _ :: _, [] => false
  | a :: as, b :: bs => if a < b then true else if a = b then lexLeB as bs else false

/-- Insertion into a key-sorted pair list. -/
def insertSorted (p : List Nat × List Nat) :
    List (List Nat × List Nat) → List (List Nat × List Nat)
  | [] => [p]
  | q :: qs => if lexLeB p.1 q.1 then p :: q :: qs else q :: insertSorted p qs

/-- Key-sorting of a pair list (the Go `Encode` iterates keys in sorted
order). -/
def sortByKey (vs : List (List Nat × List Nat)) : List (List Nat × List Nat) :=
  vs.foldr insertSorted []

/-- Joining of encoded pairs with ampersands. -/
def joinAmp : List (List Nat) → List Nat
  | [] => []
  | [x] => x
  | x :: xs => x ++ [38] ++ joinAmp xs

/-- Model of `url.Values.Encode` for single-valued keys: sort by key,
escape key and value, join with ampersands. -/
def encodeVals (vs : List (List Nat × List Nat)) : List Nat :=
  joinAmp ((sortByKey vs).map (fun p => escQuery p.1 ++ [61] ++ escQuery p.2))

/-- Parsed URL record, after the fields of `net/url.URL` that the code
reads: scheme, host (port kept, user information stripped), decoded path,
raw query and decoded fragment.  Opaque URLs are represented with empty
host and path, which is all the canonicalizer observes of them. -/
structure GoURL where
  scheme : List Nat
  host : List Nat
  path : List Nat
  rawQuery : List Nat
  fragment : List Nat
deriving DecidableEq, Repr

/-- Scheme detection of the Go `getScheme`: a scheme is a letter followed
by letters, digits, plus, dash or dot, terminated by a colon; a leading
colon is a parse error, and in all other shapes the input has no scheme. -/
def getScheme (s : List Nat) : Option (List Nat × List Nat) :=
  match s with
  | [] => some ([], [])
  | b :: _ =>
    if b = 58 then none
    else if isAlphaByte b then
      match s.dropWhile isSchemeByte with
      | 58 :: rest => some (s.takeWhile isSchemeByte, rest)
      | _ => some ([], s)
    else some ([], s)
where
  /-- Bytes allowed after the first position of a scheme. -/
  isSchemeByte (b : Nat) : Bool :=
    isAlphaByte b || isDigitByte b || decide (b = 43 ∨ b = 45 ∨ b = 46)

/-- Model of `url.Parse` for the shapes the code exercises: cut the
fragment at the first hash, the query at the first question mark, detect
the scheme, then either take an authority after a double slash (host up to
the first slash, user information before a last at-sign stripped) or treat
the remainder as a path; paths and fragments are percent-decoded and a
decoding failure is a parse error, as is a colon inside the first path
segment of a scheme-less URL.  Host validation (ports, brackets) and
IDNA are not modelled; the code only compares hosts against ASCII
literals. -/
def parseURL (s : List Nat) : Option GoURL :=
  let cf := cutB 35 s
  match unescape false cf.2 with
  | none => none
  | some fragD =>
    let cq := cutB 63 cf.1
    match getScheme cq.1 with
    | none => none
    | some sr =>
      if sr.1 ≠ [] ∧ hasPrefixB sr.2 [47] = false then
        some { scheme := sr.1, host := [], path := [], rawQuery := cq.2, fragment := fragD }
      else if hasPrefixB sr.2 [47, 47] then
        let rest2 := sr.2.drop 2
        let auth := rest2.takeWhile (fun b => b != 47)
        let pathRaw := rest2.dropWhile (fun b => b != 47)
        let host := (auth.reverse.takeWhile (fun b => b != 64)).reverse
        match unescape false pathRaw with
        | none => none
        | some p =>
          some { scheme := sr.1, host := host, path := p, rawQuery := cq.2, fragment := fragD }
      else
        if sr.1 = [] ∧ 58 ∈ sr.2.takeWhile (fun b => b != 47) then none
        else
          match unescape false sr.2 with
          | none => none
          | some p =>
            some { scheme := sr.1, host := [], path := p, rawQuery := cq.2, fragment := fragD }

/-- Rendering of a URL value, after `url.URL.String` for the shapes the
code constructs: scheme, double slash, host, path-escaped path, optional
raw query after a question mark, optional fragment after a hash. -/
def render (u : GoURL) : List Nat :=
  u.scheme ++ strBytes "://" ++ u.host ++ escPath u.path ++
    (if u.rawQuery = [] then [] else 63 :: u.rawQuery) ++
    (if u.fragment = [] then [] else 35 :: u.fragment)

/-- Query of the canonical watch URL built by `canonicalYouTube`: the
target id under key `v` and, when non-empty, the time offset under key
`t`, rendered by the sorted `Encode`. -/
def watchQuery (id t : List Nat) : List Nat :=
  encodeVals
    (if t = [] then [(strBytes "v", id)] else [(strBytes "v", id), (strBytes "t", t)])

/-- Canonical watch URL constructed (four times, with identical shape) by
the source: `https://www.youtube.com/watch` carrying only the target id
and the optional time offset. -/
def watchURL (id t : List Nat) : List Nat :=
  render
    { scheme := strBytes "https", host := strBytes "www.youtube.com",
      path := strBytes "/watch", rawQuery := watchQuery id t, fragment := [] }

/-- Model of `canonicalYouTube` from `main.go`: normalize the recognized
YouTube URL shapes into `https://www.youtube.com/watch?v=ID`, keeping only
the `v` and optional `t` query parameters.  The branch structure follows
the source: the short host, then on long hosts the shorts and live paths
(falling through when the id segment is empty), the watch path, and the
embed path. -/
def canonicalYouTube (raw : List Nat) : Option (List Nat) :=
  match parseURL raw with
  | none => none
  | some parsed =>
    let host := toLowerB parsed.host
    if host = strBytes "youtu.be" then
      let id := trimPrefixB parsed.path (strBytes "/")
      if id = [] then none
      else some (watchURL id (valsGet (parseQuery parsed.rawQuery) (strBytes "t")))
    else if hasSuffixB host (strBytes "youtube.com") ||
        hasSuffixB host (strBytes "youtube-nocookie.com") ||
        hasSuffixB host (strBytes "m.youtube.com") then
      let parts := splitByte 47 (trimSlashes parsed.path)
      let qs := parseQuery parsed.rawQuery
      if 2 ≤ parts.length ∧
          (parts.headD [] = strBytes "shorts" ∨ parts.headD [] = strBytes "live") ∧
          (parts.drop 1).headD [] ≠ [] then
        some (watchURL ((parts.drop 1).headD []) (valsGet qs (strBytes "t")))
      else if hasPrefixB parsed.path (strBytes "/watch") then
        let id := valsGet qs (strBytes "v")
        if id = [] then none
        else some (watchURL id (valsGet qs (strBytes "t")))
      else if hasPrefixB parsed.path (strBytes "/embed/") then
        let id := pathBase parsed.path
        if id ≠ [] then
          let start := valsGet qs (strBytes "start")
          some (watchURL id (if start = [] then [] else start ++ [115]))
        else none
      else none
    else none

/-! ### Redirect resolver -/

/-- Outcome of one HTTP probe of a URL, the interface between the
resolver loop and the network.  `failure` stands for both the HEAD and the
fallback GET request failing in `client.Do`; `response` carries the status
code and the value of the `Location` header (empty when absent).  The
network is passed to the resolver as an oracle indexed by the probe
number, so one theorem quantifies over every possible server behaviour. -/
inductive Probe where
  | failure : Probe
  | response (status : Nat) (location : List Nat) : Probe
deriving DecidableEq, Repr

/-- Error outcomes of `resolveHTTP`: a failed probe, a 3xx response with
no `Location` header, an unparsable `Location` value, or running out of
hops (the `too many redirects` error, carrying the bound as the Go error
message does). -/
inductive ResolveError where
  | probeFailure : ResolveError
  | missingLocation : ResolveError
  | badLocation : ResolveError
  | tooManyRedirects (maxHops : Nat) : ResolveError
deriving DecidableEq, Repr

/-- Test for the hop-exhaustion error. -/
def isTooMany : ResolveError → Bool
  | .tooManyRedirects _ => true
  | _ => false

/-- Next URL after a redirect, after `url.Parse(loc)` followed by
`base.ResolveReference(next).String()`.  An unparsable location is an
error; an absolute location replaces the URL; otherwise scheme and, when
absent, host are taken from the base and a relative path is appended to
the base directory.  Dot-segment removal of the full RFC resolution
algorithm is not modelled; no claim depends on the resolved value. -/
def redirectTarget (base loc : List Nat) : Option (List Nat) :=
  match parseURL loc, parseURL base with
  | none, _ => none
  | _, none => none
  | some l, some b =>
    if l.scheme ≠ [] then some (render l)
    else if l.host ≠ [] then some (render { l with scheme := b.scheme })
    else if hasPrefixB l.path [47] then
      some (render { l with scheme := b.scheme, host := b.host })
    else
      let merged := (b.path.reverse.dropWhile (fun x => x != 47)).reverse ++ l.path
      some (render { l with scheme := b.scheme, host := b.host, path := merged })

/-- Loop body of `resolveHTTP`: `fuel` is the number of loop iterations
still allowed, `i` the index of the next probe and `u` the current URL.
The first result component is the `(string, error)` pair the Go function
returns; the second counts the probes performed and instruments the model
for the hop-bound claims. -/
def resolveSteps (env : Nat → List Nat → Probe) (maxHops : Nat) :
    Nat → Nat → List Nat → (List Nat × Option ResolveError) × Nat
  | 0, _, _ => (([], some (.tooManyRedirects maxHops)), 0)
  | fuel + 1, i, u =>
    match env i u with
    | .failure => (([], some .probeFailure), 1)
    | .response status loc =>
      if status / 100 = 3 then
        if loc = [] then (([], some .missingLocation), 1)
        else
          match redirectTarget u loc with
          | none => (([], some .badLocation), 1)
          | some u2 =>
            let r := resolveSteps env maxHops fuel (i + 1) u2
            (r.1, r.2 + 1)
      else ((u, none), 1)

/-- Model of `resolveHTTP` from `main.go`: follow up to `maxHops`
redirects manually against the probe oracle `env`, returning the final URL
or the error, exactly as the Go `(string, error)` pair. -/
def resolveHTTP (env : Nat → List Nat → Probe) (start : List Nat) (maxHops : Nat) :
    List Nat × Option ResolveError :=
  (resolveSteps env maxHops maxHops 0 start).1

/-- Number of probes `resolveHTTP` performs on the same run. -/
def resolveProbeCount (env : Nat → List Nat → Probe) (start : List Nat) (maxHops : Nat) : Nat :=
  (resolveSteps env maxHops maxHops 0 start).2

/-- Model of `resolveYouTubeURL` from `main.go`: static canonicalization
first, then redirect resolution with ten hops and a second
canonicalization attempt; a resolution error falls back to the original
input.  The result tuple is `(url, wasRedirect, wasCanonical, error)`. -/
def resolveYouTubeURL (env : Nat → List Nat → Probe) (input : List Nat) :
    List Nat × Bool × Bool × Option ResolveError :=
  match canonicalYouTube input with
  | some canon => (canon, false, true, none)
  | none =>
    match resolveHTTP env input 10 with
    | (_, some err) => (input, false, false, some err)
    | (finalU, none) =>
      let wasRedirect := finalU != input
      match canonicalYouTube finalU with
      | some canon => (canon, wasRedirect, true, none)
      | none => (finalU, wasRedirect, false, none)

/-! ### Progress broadcast hub -/

/-- Progress update record of `main.go` (`Progress`, `Status`, `Error`);
the progress is an `Int` because the error sentinel is minus one. -/
structure ProgressUpdate where
  progress : Int
  status : String
  error : Bool
deriving DecidableEq, Repr

/-- Cache record of a finished session (`FinalUpdate`, `CompletedAt`);
time is an abstract tick counter. -/
structure CompletedDownload where
  finalUpdate : ProgressUpdate
  completedAt : Nat
deriving DecidableEq, Repr

/-- Buffered subscriber channel, represented by its queued contents. -/
abbrev Queue := List ProgressUpdate

/-- Capacity of a subscriber channel (`make(chan ProgressUpdate, 10)`). -/
def progressChanCap : Nat := 10

/-- Retention of a completed-download cache entry, in ticks
(`completedCacheTTL = 5 * time.Minute`, with one tick per second). -/
def completedCacheTTL : Nat := 300

/-- Shared state of the hub: the live registry `progressClients`, the
`completedDownloads` cache, plus a `pendingSubscribers` list recording
subscriber connections that have passed the cache check of
`handleProgress` but not yet registered their channel (the two steps take
the registry lock separately in the source), a `finalized` history
variable recording the sessions that have received a terminal broadcast,
and an abstract clock. -/
structure HubState where
  progressClients : List (String × List Queue)
  completedDownloads : List (String × CompletedDownload)
  pendingSubscribers : List String
  finalized : List String
  clock : Nat
deriving DecidableEq, Repr

/-- Lookup in an association list, the model of a Go map read. -/
def lookupA {α : Type} : List (String × α) → String → Option α
  | [], _ => none
  | p :: rest, k => if p.1 = k then some p.2 else lookupA rest k

/-- Deletion from an association list, the model of a Go map delete. -/
def eraseA {α : Type} (m : List (String × α)) (k : String) : List (String × α) :=
  m.filter (fun p => p.1 != k)

/-- Insertion into an association list, the model of a Go map write. -/
def insertA {α : Type} (m : List (String × α)) (k : String) (v : α) : List (String × α) :=
  (k, v) :: eraseA m k

/-- Non-blocking send of the `select`/`default` in the source: deliver
when the channel buffer has room, silently drop the update otherwise. -/
def trySend (u : ProgressUpdate) (q : Queue) : Queue :=
  if q.length < progressChanCap then q ++ [u] else q

/-- Best-effort fan-out of one update to every channel of one session;
sessions without a registry entry are untouched (a Go map read does not
create an entry). -/
def fanOut (u : ProgressUpdate) (m : List (String × List Queue)) (s : String) :
    List (String × List Queue) :=
  m.map (fun p => if p.1 = s then (p.1, p.2.map (trySend u)) else p)

/-- Model of `sendProgress` from `main.go`: build the update, fan it out
non-blockingly, and when the progress is exactly one hundred close every
channel of the session, delete the session from the live registry and
cache the final update; the session is then recorded as finalized (history
variable only). -/
def sendProgress (st : HubState) (sessionID : String) (progress : Int) (status : String) :
    HubState :=
  let update : ProgressUpdate := ⟨progress, status, false⟩
  let st1 := { st with progressClients := fanOut update st.progressClients sessionID }
  if progress = 100 then
    { st1 with
      progressClients := eraseA st1.progressClients sessionID,
      completedDownloads := insertA st1.completedDownloads sessionID ⟨update, st.clock⟩,
      finalized := sessionID :: st1.finalized }
  else st1

/-- Model of `sendError` from `main.go`: fan out the error update (with
the minus-one sentinel), close every channel, delete the session from the
live registry and cache the error update for reconnects. -/
def sendError (st : HubState) (sessionID : String) (errorMsg : String) : HubState :=
  let update : ProgressUpdate := ⟨-1, errorMsg, true⟩
  { st with
    progressClients := eraseA (fanOut update st.progressClients sessionID) sessionID,
    completedDownloads := insertA st.completedDownloads sessionID ⟨update, st.clock⟩,
    finalized := sessionID :: st.finalized }

/-- Cache check of `handleProgress` (performed under the read lock): the
cached final update of the session, when present. -/
def subscribeCheck (st : HubState) (sessionID : String) : Option ProgressUpdate :=
  (lookupA st.completedDownloads sessionID).map (fun c => c.finalUpdate)

/-- Registration step of `handleProgress` (performed later, under the
write lock): append a fresh empty channel to the live list of the
session. -/
def subscribeRegister (st : HubState) (sessionID : String) : HubState :=
  { st with progressClients :=
      match lookupA st.progressClients sessionID with
      | some qs => insertA st.progressClients sessionID (qs ++ [[]])
      | none => insertA st.progressClients sessionID [[]] }

/-- Sequential composition of the two phases of `handleProgress`, the
behaviour of a subscribe call with nothing interleaved between its cache
check and its registration: a cache hit returns the cached terminal update
and leaves the state unchanged; a miss registers a new channel. -/
def handleProgress (st : HubState) (sessionID : String) :
    Option ProgressUpdate × HubState :=
  match subscribeCheck st sessionID with
  | some u => (some u, st)
  | none => (none, subscribeRegister st sessionID)

/-- Disconnect cleanup of `handleProgress`: remove channel `i` of the
session and delete the session entry when no channel remains. -/
def unsubscribe (st : HubState) (sessionID : String) (i : Nat) : HubState :=
  match lookupA st.progressClients sessionID with
  | none => st
  | some qs =>
    let qs2 := qs.take i ++ qs.drop (i + 1)
    if qs2 = [] then { st with progressClients := eraseA st.progressClients sessionID }
    else { st with progressClients := insertA st.progressClients sessionID qs2 }

/-- One pass of `cleanupCompletedDownloads`: drop every cache entry whose
age exceeds the retention bound. -/
def cleanupSweep (ttl : Nat) (st : HubState) : HubState :=
  { st with completedDownloads :=
      st.completedDownloads.filter (fun p => !decide (ttl < st.clock - p.2.completedAt)) }

/-- Interleaving semantics of the hub: each step is one critical section
of the source (one acquisition of `progressMutex`).  The two phases of a
subscribe are separate steps, exactly as the source takes the read lock
for the cache check and the write lock for the registration separately;
`publish` and the two finalize forms are single steps because the source
holds the lock across them; `tick` advances the abstract clock. -/
inductive HubStep : HubState → HubState → Prop where
  | checkHit (st : HubState) (s : String) (u : ProgressUpdate) :
      subscribeCheck st s = some u → HubStep st st
  | checkMiss (st : HubState) (s : String) :
      subscribeCheck st s = none →
      HubStep st { st with pendingSubscribers := s :: st.pendingSubscribers }
  | register (st : HubState) (s : String) :
      s ∈ st.pendingSubscribers →
      HubStep st
        (subscribeRegister { st with pendingSubscribers := st.pendingSubscribers.erase s } s)
  | publish (st : HubState) (s : String) (progress : Int) (status : String) :
      HubStep st (sendProgress st s progress status)
  | errorCast (st : HubState) (s : String) (msg : String) :
      HubStep st (sendError st s msg)
  | unsub (st : HubState) (s : String) (i : Nat) :
      HubStep st (unsubscribe st s i)
  | sweep (st : HubState) :
      HubStep st (cleanupSweep completedCacheTTL st)
  | tick (st : HubState) :
      HubStep st { st with clock := st.clock + 1 }

/-- States of the hub reachable from the empty initial state by
interleaved steps. -/
inductive HubReachable : HubState → Prop where
  | init : HubReachable ⟨[], [], [], [], 0⟩
  | step {st st2 : HubState} : HubReachable st → HubStep st st2 → HubReachable st2

/-! ### Test environments for the resolver -/

/-- Probe oracle on which every probe fails (an unreachable network). -/
def envDown : Nat → List Nat → Probe := fun _ _ => .failure

/-- Probe oracle that always redirects to the same absolute location. -/
def envLoop : Nat → List Nat → Probe :=
  fun _ _ => .response 301 (strBytes "https://a.example/next")

/-! ### Association list and fan-out lemmas -/

theorem lookupA_insertA_self {α : Type} (m : List (String × α)) (k : String) (v : α) :
    lookupA (insertA m k v) k = some v := by
  simp [insertA, lookupA]

theorem lookupA_eraseA_ne {α : Type} (m : List (String × α)) {k k2 : String} (h : k2 ≠ k) :
    lookupA (eraseA m k) k2 = lookupA m k2 := by
  induction m with
  | nil => simp [eraseA, lookupA]
  | cons p rest ih =>
    by_cases hp : p.1 = k
    · simp only [eraseA, List.filter] at ih ⊢
      rw [hp]
      simp only [bne_self_eq_false]
      rw [ih, lookupA]
      have : ¬ p.1 = k2 := by rw [hp]; exact fun hh => h hh.symm
      simp [this]
    · simp only [eraseA, List.filter] at ih ⊢
      have : (p.1 != k) = true := by simpa using hp
      rw [this]
      by_cases hq : p.1 = k2
      · simp [lookupA, hq]
      · simp only [lookupA, hq, if_false]
        exact ih

theorem lookupA_insertA_ne {α : Type} (m : List (String × α)) {k k2 : String} (v : α)
    (h : k2 ≠ k) : lookupA (insertA m k v) k2 = lookupA m k2 := by
  simp only [insertA, lookupA]
  rw [if_neg (fun hh => h hh.symm)]
  exact lookupA_eraseA_ne m h

theorem lookupA_eraseA_self {α : Type} (m : List (String × α)) (k : String) :
    lookupA (eraseA m k) k = none := by
  induction m with
  | nil => simp [eraseA, lookupA]
  | cons p rest ih =>
    by_cases hp : p.1 = k
    · simpa [eraseA, List.filter, hp] using ih
    · have : (p.1 != k) = true := by simpa using hp
      simpa [eraseA, List.filter, this, lookupA, hp] using ih

theorem lookupA_fanOut_self (u : ProgressUpdate) (m : List (String × List Queue)) (s : String) :
    lookupA (fanOut u m s) s = (lookupA m s).map (fun qs => qs.map (trySend u)) := by
  induction m with
  | nil => simp [fanOut, lookupA]
  | cons p rest ih =>
    simp only [fanOut, List.map] at ih ⊢
    by_cases hp : p.1 = s
    · simp [lookupA, hp]
    · simp [lookupA, hp, ih]

theorem lookupA_fanOut_ne (u : ProgressUpdate) (m : List (String × List Queue))
    {s s2 : String} (h : s2 ≠ s) :
    lookupA (fanOut u m s) s2 = lookupA m s2 := by
  induction m with
  | nil => simp [fanOut, lookupA]
  | cons p rest ih =>
    have hss : ¬ s = s2 := fun hh => h hh.symm
    simp only [fanOut, List.map] at ih ⊢
    by_cases hp : p.1 = s
    · have hp2 : ¬ p.1 = s2 := by rw [hp]; exact hss
      simp [lookupA, hp, hp2, hss, ih]
    · by_cases hq : p.1 = s2 <;> simp [lookupA, hp, hq, h, hss, ih]

/-! ### Resolver lemmas -/

theorem resolveSteps_spec (env : Nat → List Nat → Probe) (maxHops : Nat) :
    ∀ (fuel i : Nat) (u : List Nat),
      (resolveSteps env maxHops fuel i u).2 ≤ fuel ∧
      ((∃ u2, (resolveSteps env maxHops fuel i u).1 = (u2, none) ∧
          ∃ j, i ≤ j ∧ j < i + fuel ∧
            ∃ st loc, env j u2 = .response st loc ∧ st / 100 ≠ 3) ∨
       (resolveSteps env maxHops fuel i u).1 = ([], some (.tooManyRedirects maxHops)) ∨
       (∃ e, (resolveSteps env maxHops fuel i u).1 = ([], some e) ∧ isTooMany e = false)) := by
  intro fuel
  induction fuel with
  | zero =>
    intro i u
    exact ⟨Nat.le_refl 0, Or.inr (Or.inl rfl)⟩
  | succ fuel ih =>
    intro i u
    cases henv : env i u with
    | failure =>
      refine ⟨?_, Or.inr (Or.inr ⟨.probeFailure, ?_, rfl⟩)⟩ <;>
        simp [resolveSteps, henv, isTooMany]
    | response status loc =>
      by_cases h3 : status / 100 = 3
      · by_cases hloc : loc = []
        · refine ⟨?_, Or.inr (Or.inr ⟨.missingLocation, ?_, rfl⟩)⟩ <;>
            simp [resolveSteps, henv, h3, hloc, isTooMany]
        · cases hrt : redirectTarget u loc with
          | none =>
            refine ⟨?_, Or.inr (Or.inr ⟨.badLocation, ?_, rfl⟩)⟩ <;>
              simp [resolveSteps, henv, h3, hloc, hrt, isTooMany]
          | some u2 =>
            have hstep : resolveSteps env maxHops (fuel + 1) i u =
                ((resolveSteps env maxHops fuel (i + 1) u2).1,
                 (resolveSteps env maxHops fuel (i + 1) u2).2 + 1) := by
              simp [resolveSteps, henv, h3, hloc, hrt]
            obtain ⟨hc, hcl⟩ := ih (i + 1) u2
            constructor
            · rw [hstep]
              exact Nat.succ_le_succ hc
            · rw [hstep]
              rcases hcl with ⟨u3, hres, j, hj1, hj2, st, lc, he, hnr⟩ | htm | ⟨e, hres, hnm⟩
              · exact Or.inl ⟨u3, hres, j, by omega, by omega, st, lc, he, hnr⟩
              · exact Or.inr (Or.inl htm)
              · exact Or.inr (Or.inr ⟨e, hres, hnm⟩)
      · refine ⟨?_, Or.inl ⟨u, ?_, i, Nat.le_refl i, by omega, status, loc, henv, h3⟩⟩ <;>
          simp [resolveSteps, henv, h3]

theorem resolveSteps_err_empty (env : Nat → List Nat → Probe) (maxHops : Nat) :
    ∀ (fuel i : Nat) (u : List Nat) (e : ResolveError),
      ((resolveSteps env maxHops fuel i u).1).2 = some e →
      ((resolveSteps env maxHops fuel i u).1).1 = [] := by
  intro fuel
  induction fuel with
  | zero => intro i u e _; rfl
  | succ fuel ih =>
    intro i u e
    cases henv : env i u with
    | failure => simp [resolveSteps, henv]
    | response status loc =>
      by_cases h3 : status / 100 = 3
      · by_cases hloc : loc = []
        · simp [resolveSteps, henv, h3, hloc]
        · cases hrt : redirectTarget u loc with
          | none => simp [resolveSteps, henv, h3, hloc, hrt]
          | some u2 =>
            intro h
            have hstep : (resolveSteps env maxHops (fuel + 1) i u).1 =
                (resolveSteps env maxHops fuel (i + 1) u2).1 := by
              simp [resolveSteps, henv, h3, hloc, hrt]
            rw [hstep] at h ⊢
            exact ih (i + 1) u2 e h
      · simp [resolveSteps, henv, h3]

/-! ### Byte-level facts about the escaping tables -/

theorem unres_avoids (b : Nat) (h : isUnresByte b = true) :
    b ≠ 37 ∧ b ≠ 43 ∧ b ≠ 32 ∧ b ≠ 35 ∧ b ≠ 63 ∧ b ≠ 38 ∧ b ≠ 61 ∧ b ≠ 59 := by
  simp [isUnresByte, isAlphaByte, isDigitByte] at h
  omega

theorem hexDig_range (n : Nat) (h : n < 16) :
    (48 ≤ hexDig n ∧ hexDig n ≤ 57) ∨ (65 ≤ hexDig n ∧ hexDig n ≤ 70) := by
  unfold hexDig
  split_ifs <;> omega

theorem isHexByte_hexDig (n : Nat) (h : n < 16) : isHexByte (hexDig n) = true := by
  have := hexDig_range n h
  simp [isHexByte, isDigitByte]
  omega

theorem hexVal_hexDig (n : Nat) (h : n < 16) : hexVal (hexDig n) = n := by
  unfold hexVal hexDig
  split_ifs <;> omega

theorem hexDig_avoids (n : Nat) (h : n < 16) :
    hexDig n ≠ 37 ∧ hexDig n ≠ 43 ∧ hexDig n ≠ 35 ∧ hexDig n ≠ 63 ∧
    hexDig n ≠ 38 ∧ hexDig n ≠ 61 ∧ hexDig n ≠ 59 := by
  have := hexDig_range n h
  omega

theorem escQueryByte_mod (b : Nat) : escQueryByte (b % 256) = escQueryByte b := by
  have h : b % 256 % 256 = b % 256 := by omega
  simp [escQueryByte, h]

theorem escQuery_map_mod (s : List Nat) : escQuery (s.map (· % 256)) = escQuery s := by
  induction s with
  | nil => rfl
  | cons b bs ih => simp [escQuery, escQueryByte_mod] at ih ⊢; rw [ih]

theorem unescape_cons_other (pts : Bool) (b : Nat) (rest : List Nat)
    (h37 : b ≠ 37) (h43 : b ≠ 43) :
    unescape pts (b :: rest) = (unescape pts rest).map (fun d => b :: d) := by
  conv_lhs => unfold unescape
  simp [h37, h43]

theorem unescape_cons_plus (pts : Bool) (rest : List Nat) :
    unescape pts (43 :: rest) =
      (unescape pts rest).map (fun d => (if pts then 32 else 43) :: d) := by
  conv_lhs => unfold unescape
  simp

theorem unescape_cons_pct (pts : Bool) (h l : Nat) (rest : List Nat)
    (hh : isHexByte h = true) (hl : isHexByte l = true) :
    unescape pts (37 :: h :: l :: rest) =
      (unescape pts rest).map (fun d => (hexVal h * 16 + hexVal l) :: d) := by
  conv_lhs => unfold unescape
  simp [hh, hl]

theorem unescape_escQueryByte (b : Nat) (rest : List Nat) :
    unescape true (escQueryByte b ++ rest) = (unescape true rest).map (fun d => b % 256 :: d) := by
  unfold escQueryByte
  by_cases hu : isUnresByte (b % 256) = true
  · obtain ⟨h37, h43, _⟩ := unres_avoids _ hu
    simp only [hu, if_true, List.singleton_append]
    exact unescape_cons_other true _ rest h37 h43
  · by_cases h32 : b % 256 = 32
    · rw [h32] at hu ⊢
      simp [show isUnresByte 32 = false from by decide]
      rw [unescape_cons_plus]
      simp
    · have h1 : b % 256 / 16 < 16 := by omega
      have h2 : b % 256 % 16 < 16 := by omega
      have harith : b % 256 / 16 * 16 + b % 256 % 16 = b % 256 := by omega
      simp only [hu, h32, if_false, Bool.false_eq_true, ite_false, List.cons_append,
        List.nil_append]
      rw [unescape_cons_pct _ _ _ _ (isHexByte_hexDig _ h1) (isHexByte_hexDig _ h2)]
      simp only [hexVal_hexDig _ h1, hexVal_hexDig _ h2, harith]

theorem unescape_escQuery_append (s rest : List Nat) :
    unescape true (escQuery s ++ rest) =
      (unescape true rest).map (fun d => s.map (· % 256) ++ d) := by
  induction s with
  | nil =>
    cases hr : unescape true rest <;> simp [escQuery, hr]
  | cons b bs ih =>
    have hesc : escQuery (b :: bs) = escQueryByte b ++ escQuery bs := by simp [escQuery]
    rw [hesc, List.append_assoc, unescape_escQueryByte, ih]
    cases hr : unescape true rest <;> simp [hr]

theorem unescape_escQuery (s : List Nat) :
    unescape true (escQuery s) = some (s.map (· % 256)) := by
  have h := unescape_escQuery_append s []
  simpa [unescape] using h

theorem escQueryByte_avoids (b : Nat) :
    ∀ x ∈ escQueryByte b, x ≠ 35 ∧ x ≠ 63 ∧ x ≠ 38 ∧ x ≠ 61 ∧ x ≠ 59 := by
  intro x hx
  unfold escQueryByte at hx
  by_cases hu : isUnresByte (b % 256) = true
  · simp [hu] at hx
    subst hx
    obtain ⟨_, _, _, h4, h5, h6, h7, h8⟩ := unres_avoids _ hu
    exact ⟨h4, h5, h6, h7, h8⟩
  · by_cases h32 : b % 256 = 32
    · rw [h32] at hu hx
      simp [show isUnresByte 32 = false from by decide] at hx
      omega
    · have h1 : b % 256 / 16 < 16 := by omega
      have h2 : b % 256 % 16 < 16 := by omega
      simp [hu, h32] at hx
      rcases hx with hx | hx | hx
      · omega
      · subst hx
        obtain ⟨_, _, h3, h4, h5, h6, h7⟩ := hexDig_avoids _ h1
        exact ⟨h3, h4, h5, h6, h7⟩
      · subst hx
        obtain ⟨_, _, h3, h4, h5, h6, h7⟩ := hexDig_avoids _ h2
        exact ⟨h3, h4, h5, h6, h7⟩

theorem escQuery_avoids (s : List Nat) :
    ∀ x ∈ escQuery s, x ≠ 35 ∧ x ≠ 63 ∧ x ≠ 38 ∧ x ≠ 61 ∧ x ≠ 59 := by
  intro x hx
  induction s with
  | nil => simp [escQuery] at hx
  | cons b bs ih =>
    have hesc : escQuery (b :: bs) = escQueryByte b ++ escQuery bs := by simp [escQuery]
    rw [hesc] at hx
    rcases List.mem_append.mp hx with h | h
    · exact escQueryByte_avoids b x h
    · exact ih h

/-! ### Cut and split lemmas -/

theorem cutB_not_mem (sep : Nat) (s : List Nat) (h : sep ∉ s) : cutB sep s = (s, []) := by
  induction s with
  | nil => rfl
  | cons b rest ih =>
    rw [List.mem_cons, not_or] at h
    have hb : ¬ b = sep := fun hh => h.1 hh.symm
    simp [cutB, hb, ih h.2]

theorem cutB_append (sep : Nat) (A B : List Nat) (h : sep ∉ A) :
    cutB sep (A ++ sep :: B) = (A, B) := by
  induction A with
  | nil => simp [cutB]
  | cons a rest ih =>
    rw [List.mem_cons, not_or] at h
    have hb : ¬ a = sep := fun hh => h.1 hh.symm
    simp [cutB, hb, ih h.2]

theorem splitByte_ne_nil (sep : Nat) (s : List Nat) : splitByte sep s ≠ [] := by
  cases s with
  | nil => simp [splitByte]
  | cons b rest =>
    simp only [splitByte]
    split
    · split <;> simp
    · simp

theorem splitByte_not_mem (sep : Nat) (s : List Nat) (h : sep ∉ s) : splitByte sep s = [s] := by
  induction s with
  | nil => rfl
  | cons b rest ih =>
    rw [List.mem_cons, not_or] at h
    have hb : ¬ b = sep := fun hh => h.1 hh.symm
    simp [splitByte, ih h.2, hb]

theorem splitByte_append (sep : Nat) (A B : List Nat) (h : sep ∉ A) :
    splitByte sep (A ++ sep :: B) = A :: splitByte sep B := by
  induction A with
  | nil =>
    cases hsb : splitByte sep B with
    | nil => exact absurd hsb (splitByte_ne_nil sep B)
    | cons s0 ss => simp [splitByte, hsb]
  | cons a rest ih =>
    rw [List.mem_cons, not_or] at h
    have hb : ¬ a = sep := fun hh => h.1 hh.symm
    simp [splitByte, ih h.2, hb]

/-! ### Shape of the canonical watch URL -/

theorem valsGet_nil (k : List Nat) : valsGet [] k = [] := rfl

theorem valsGet_cons_self (k : List Nat) (v : List Nat) (rest : List (List Nat × List Nat)) :
    valsGet ((k, v) :: rest) k = v := by
  simp [valsGet, List.find?]

theorem valsGet_cons_ne (k2 k : List Nat) (v : List Nat) (rest : List (List Nat × List Nat))
    (h : (k2 == k) = false) : valsGet ((k2, v) :: rest) k = valsGet rest k := by
  simp [valsGet, List.find?, h]

theorem watchQuery_nil (id : List Nat) : watchQuery id [] = 118 :: 61 :: escQuery id := by
  simp [watchQuery, encodeVals, sortByKey, insertSorted, joinAmp,
    show escQuery (strBytes "v") = [118] from by decide]

theorem watchQuery_cons (id t : List Nat) (ht : t ≠ []) :
    watchQuery id t = (116 :: 61 :: escQuery t) ++ 38 :: (118 :: 61 :: escQuery id) := by
  simp [watchQuery, ht, encodeVals, sortByKey, insertSorted, joinAmp,
    show lexLeB (strBytes "v") (strBytes "t") = false from by decide,
    show escQuery (strBytes "v") = [118] from by decide,
    show escQuery (strBytes "t") = [116] from by decide]

theorem watchQuery_ne_nil (id t : List Nat) : watchQuery id t ≠ [] := by
  by_cases ht : t = []
  · subst ht
    rw [watchQuery_nil]
    simp
  · rw [watchQuery_cons id t ht]
    simp

theorem watchQuery_avoids (id t : List Nat) :
    ∀ x ∈ watchQuery id t, x ≠ 35 ∧ x ≠ 63 := by
  intro x hx
  by_cases ht : t = []
  · subst ht
    rw [watchQuery_nil] at hx
    rcases List.mem_cons.mp hx with h | hx2
    · omega
    rcases List.mem_cons.mp hx2 with h | hx3
    · omega
    · obtain ⟨h1, h2, _⟩ := escQuery_avoids id x hx3
      exact ⟨h1, h2⟩
  · rw [watchQuery_cons id t ht] at hx
    rcases List.mem_append.mp hx with h | h
    · rcases List.mem_cons.mp h with h1 | h1
      · omega
      rcases List.mem_cons.mp h1 with h2 | h2
      · omega
      · obtain ⟨hh1, hh2, _⟩ := escQuery_avoids t x h2
        exact ⟨hh1, hh2⟩
    · rcases List.mem_cons.mp h with h1 | h1
      · omega
      rcases List.mem_cons.mp h1 with h2 | h2
      · omega
      rcases List.mem_cons.mp h2 with h3 | h3
      · omega
      · obtain ⟨hh1, hh2, _⟩ := escQuery_avoids id x h3
        exact ⟨hh1, hh2⟩

theorem watchURL_eq (id t : List Nat) :
    watchURL id t = strBytes "https://www.youtube.com/watch" ++ 63 :: watchQuery id t := by
  simp only [watchURL, render, if_neg (watchQuery_ne_nil id t)]
  rw [show strBytes "https://www.youtube.com/watch" =
    strBytes "https" ++ strBytes "://" ++ strBytes "www.youtube.com" ++
      escPath (strBytes "/watch") from by decide]
  simp [List.append_assoc]

theorem parseURL_watchURL (id t : List Nat) :
    parseURL (watchURL id t) =
      some { scheme := strBytes "https", host := strBytes "www.youtube.com",
             path := strBytes "/watch", rawQuery := watchQuery id t, fragment := [] } := by
  rw [watchURL_eq]
  have h35 : (35 : Nat) ∉ strBytes "https://www.youtube.com/watch" ++ 63 :: watchQuery id t := by
    intro hx
    rcases List.mem_append.mp hx with h | h
    · revert h
      decide
    · rcases List.mem_cons.mp h with h | h
      · omega
      · exact (watchQuery_avoids id t 35 h).1 rfl
  have h63 : (63 : Nat) ∉ strBytes "https://www.youtube.com/watch" := by decide
  simp only [parseURL, cutB_not_mem _ _ h35,
    cutB_append 63 (strBytes "https://www.youtube.com/watch") (watchQuery id t) h63,
    show unescape false [] = some [] from rfl,
    show getScheme (strBytes "https://www.youtube.com/watch") =
      some (strBytes "https", strBytes "//www.youtube.com/watch") from by decide,
    show ¬(strBytes "https" ≠ [] ∧
      hasPrefixB (strBytes "//www.youtube.com/watch") [47] = false) from by decide,
    show hasPrefixB (strBytes "//www.youtube.com/watch") [47, 47] = true from by decide,
    show (strBytes "//www.youtube.com/watch").drop 2 = strBytes "www.youtube.com/watch" from by
      decide,
    show (strBytes "www.youtube.com/watch").takeWhile (fun b => b != 47) =
      strBytes "www.youtube.com" from by decide,
    show (strBytes "www.youtube.com/watch").dropWhile (fun b => b != 47) =
      strBytes "/watch" from by decide,
    show ((strBytes "www.youtube.com").reverse.takeWhile (fun b => b != 64)).reverse =
      strBytes "www.youtube.com" from by decide,
    show unescape false (strBytes "/watch") = some (strBytes "/watch") from by decide,
    if_false, ite_false]
  simp

theorem parseQuery_watchQuery_nil (id : List Nat) :
    parseQuery (watchQuery id []) = [(strBytes "v", id.map (· % 256))] := by
  rw [watchQuery_nil]
  have h38 : (38 : Nat) ∉ (118 :: 61 :: escQuery id) := by
    intro h
    rcases List.mem_cons.mp h with h | h
    · omega
    rcases List.mem_cons.mp h with h | h
    · omega
    · exact (escQuery_avoids id 38 h).2.2.1 rfl
  have h59 : ¬ (59 : Nat) ∈ escQuery id := fun h => (escQuery_avoids id 59 h).2.2.2.2 rfl
  have hcut : cutB 61 (118 :: 61 :: escQuery id) = ([118], escQuery id) := by simp [cutB]
  simp only [parseQuery, splitByte_not_mem _ _ h38, List.filterMap]
  simp [parsePair, hcut, h59,
    show unescape true [118] = some [118] from by decide, unescape_escQuery,
    show strBytes "v" = [118] from by decide]

theorem parseQuery_watchQuery_cons (id t : List Nat) (ht : t ≠ []) :
    parseQuery (watchQuery id t) =
      [(strBytes "t", t.map (· % 256)), (strBytes "v", id.map (· % 256))] := by
  rw [watchQuery_cons id t ht]
  have h38a : (38 : Nat) ∉ (116 :: 61 :: escQuery t) := by
    intro h
    rcases List.mem_cons.mp h with h | h
    · omega
    rcases List.mem_cons.mp h with h | h
    · omega
    · exact (escQuery_avoids t 38 h).2.2.1 rfl
  have h38b : (38 : Nat) ∉ (118 :: 61 :: escQuery id) := by
    intro h
    rcases List.mem_cons.mp h with h | h
    · omega
    rcases List.mem_cons.mp h with h | h
    · omega
    · exact (escQuery_avoids id 38 h).2.2.1 rfl
  have h59a : ¬ (59 : Nat) ∈ escQuery t := fun h => (escQuery_avoids t 59 h).2.2.2.2 rfl
  have h59b : ¬ (59 : Nat) ∈ escQuery id := fun h => (escQuery_avoids id 59 h).2.2.2.2 rfl
  have hcutt : cutB 61 (116 :: 61 :: escQuery t) = ([116], escQuery t) := by simp [cutB]
  have hcuti : cutB 61 (118 :: 61 :: escQuery id) = ([118], escQuery id) := by simp [cutB]
  simp only [parseQuery, splitByte_append 38 _ _ h38a, splitByte_not_mem _ _ h38b,
    List.filterMap]
  simp [parsePair, hcutt, hcuti, h59a, h59b,
    show unescape true [118] = some [118] from by decide,
    show unescape true [116] = some [116] from by decide, unescape_escQuery,
    show strBytes "v" = [118] from by decide, show strBytes "t" = [116] from by decide]

theorem watchQuery_map_mod (id t : List Nat) :
    watchQuery (id.map (· % 256)) (t.map (· % 256)) = watchQuery id t := by
  by_cases ht : t = []
  · subst ht
    simp only [List.map_nil]
    rw [watchQuery_nil, watchQuery_nil, escQuery_map_mod]
  · have ht2 : t.map (· % 256) ≠ [] := by
      simpa using ht
    rw [watchQuery_cons _ _ ht2, watchQuery_cons _ _ ht, escQuery_map_mod, escQuery_map_mod]

theorem watchURL_map_mod (id t : List Nat) :
    watchURL (id.map (· % 256)) (t.map (· % 256)) = watchURL id t := by
  simp only [watchURL, watchQuery_map_mod]

theorem canonical_watchURL (id t : List Nat) (hid : id ≠ []) :
    canonicalYouTube (watchURL id t) = some (watchURL id t) := by
  have hidm : id.map (· % 256) ≠ [] := by simpa using hid
  have f1 : ¬ (toLowerB (strBytes "www.youtube.com") = strBytes "youtu.be") := by decide
  have f2 : (hasSuffixB (toLowerB (strBytes "www.youtube.com")) (strBytes "youtube.com") ||
      hasSuffixB (toLowerB (strBytes "www.youtube.com")) (strBytes "youtube-nocookie.com") ||
      hasSuffixB (toLowerB (strBytes "www.youtube.com")) (strBytes "m.youtube.com")) = true := by
    decide
  have f3 : ¬ (2 ≤ (splitByte 47 (trimSlashes (strBytes "/watch"))).length ∧
      ((splitByte 47 (trimSlashes (strBytes "/watch"))).headD [] = strBytes "shorts" ∨
        (splitByte 47 (trimSlashes (strBytes "/watch"))).headD [] = strBytes "live") ∧
      ((splitByte 47 (trimSlashes (strBytes "/watch"))).drop 1).headD [] ≠ []) := by decide
  have f4 : hasPrefixB (strBytes "/watch") (strBytes "/watch") = true := by decide
  by_cases ht : t = []
  · subst ht
    have hm : watchURL (id.map (· % 256)) [] = watchURL id [] := by
      simpa using watchURL_map_mod id []
    simp only [canonicalYouTube, parseURL_watchURL, f1, f2, f3, f4,
      parseQuery_watchQuery_nil, if_false, ite_false, ite_true, if_true]
    simp only [valsGet_cons_self,
      valsGet_cons_ne _ _ _ _ (show (strBytes "v" == strBytes "t") = false from by decide),
      valsGet_nil]
    simp [hidm, hm]
  · have hm := watchURL_map_mod id t
    simp only [canonicalYouTube, parseURL_watchURL, f1, f2, f3, f4,
      parseQuery_watchQuery_cons id t ht, if_false, ite_false, ite_true, if_true]
    simp only [valsGet_cons_self,
      valsGet_cons_ne _ _ _ _ (show (strBytes "t" == strBytes "v") = false from by decide)]
    simp [hidm, hm]

theorem canonicalYouTube_watch_shape (u c : List Nat) (h : canonicalYouTube u = some c) :
    ∃ id t, id ≠ [] ∧ c = watchURL id t := by
  unfold canonicalYouTube at h
  cases hp : parseURL u with
  | none =>
    rw [hp] at h
    simp at h
  | some parsed =>
    rw [hp] at h
    simp only [] at h
    split_ifs at h with h1 h2 h3 h4 h5 h6 h7 h8 h9
    · injection h with h
      exact ⟨_, _, h2, h.symm⟩
    · injection h with h
      exact ⟨_, _, h4.2.2, h.symm⟩
    · injection h with h
      exact ⟨_, _, h6, h.symm⟩
    · injection h with h
      exact ⟨_, _, h8, h.symm⟩
    · injection h with h
      exact ⟨_, _, h8, h.symm⟩

/-! ### Claim theorems (hub and resolver) -/

/-- Claim C1: a subscribe (`handleProgress`) performed strictly after a
finalize of the session (`sendProgress` with progress one hundred, or
`sendError`) has completed returns the cached terminal update directly and
registers no new live subscriber queue — the hub state is returned
unchanged. -/
theorem handleProgress_after_finalize (st : HubState) (s status msg : String) :
    handleProgress (sendProgress st s 100 status) s =
      (some ⟨100, status, false⟩, sendProgress st s 100 status) ∧
    handleProgress (sendError st s msg) s =
      (some ⟨-1, msg, true⟩, sendError st s msg) := by
  constructor
  · have h : subscribeCheck (sendProgress st s 100 status) s = some ⟨100, status, false⟩ := by
      simp [subscribeCheck, sendProgress, lookupA_insertA_self]
    simp [handleProgress, h]
  · have h : subscribeCheck (sendError st s msg) s = some ⟨-1, msg, true⟩ := by
      simp [subscribeCheck, sendError, lookupA_insertA_self]
    simp [handleProgress, h]

/-- Claim C3, counterexample: with an oracle on which every probe fails,
`resolveHTTP` returns neither a non-redirect URL nor the too-many-redirects
error, but the probe-failure error — refuting the claimed dichotomy as
stated. -/
theorem resolveHTTP_dichotomy_counterexample :
    (resolveHTTP envDown (strBytes "https://example.com/x") 5).2 =
      some ResolveError.probeFailure ∧
    isTooMany ResolveError.probeFailure = false ∧
    (resolveHTTP envDown (strBytes "https://example.com/x") 5).1 = [] := by
  decide

/-- Claim C3, amended: for every probe oracle, URL and hop bound `N`,
`resolveHTTP` performs at most `N` probe iterations, and either returns a
URL whose probe response was non-redirect within the bound, or the
too-many-redirects error, or an error from a failed probe, a redirect
without a location, or an unparsable location. -/
theorem resolveHTTP_bounded_outcomes (env : Nat → List Nat → Probe) (u : List Nat) (N : Nat) :
    resolveProbeCount env u N ≤ N ∧
    ((∃ u2, resolveHTTP env u N = (u2, none) ∧
        ∃ i, i < N ∧ ∃ st loc, env i u2 = .response st loc ∧ st / 100 ≠ 3) ∨
     resolveHTTP env u N = ([], some (.tooManyRedirects N)) ∨
     ∃ e, resolveHTTP env u N = ([], some e) ∧ isTooMany e = false) := by
  obtain ⟨hc, hcl⟩ := resolveSteps_spec env N N 0 u
  simp only [resolveHTTP, resolveProbeCount]
  refine ⟨hc, ?_⟩
  rcases hcl with ⟨u2, hres, j, _, hj2, st, loc, he, hnr⟩ | htm | ⟨e, hres, hnm⟩
  · exact Or.inl ⟨u2, hres, j, by omega, st, loc, he, hnr⟩
  · exact Or.inr (Or.inl htm)
  · exact Or.inr (Or.inr ⟨e, hres, hnm⟩)

/-- Claim C4, counterexample: on hop exhaustion `resolveHTTP` returns the
empty string together with the too-many-redirects error, not the
best-known URL reached so far — the starting URL is non-empty, the
returned one is empty. -/
theorem resolveHTTP_tooMany_counterexample :
    resolveHTTP envLoop (strBytes "https://s.example/") 2 =
      ([], some (.tooManyRedirects 2)) ∧
    strBytes "https://s.example/" ≠ ([] : List Nat) := by
  decide

/-- Claim C4, amended: whenever `resolveHTTP` exceeds its hop bound it
returns the too-many-redirects error together with an empty URL; graceful
degradation is performed by the caller `resolveYouTubeURL`, which falls
back to its original input. -/
theorem resolveHTTP_tooMany_empty_url (env : Nat → List Nat → Probe) (u : List Nat) (N : Nat)
    (h : (resolveHTTP env u N).2 = some (.tooManyRedirects N)) :
    (resolveHTTP env u N).1 = [] := by
  simp only [resolveHTTP] at h ⊢
  exact resolveSteps_err_empty env N N 0 u _ h

/-- Claim C4, witness: the amended theorem applied to the always-redirect
oracle with hop bound two. -/
theorem resolveHTTP_tooMany_empty_url_witness :
    (resolveHTTP envLoop (strBytes "https://s.example/") 2).2 =
      some (ResolveError.tooManyRedirects 2) ∧
    (resolveHTTP envLoop (strBytes "https://s.example/") 2).1 = [] :=
  ⟨by decide, resolveHTTP_tooMany_empty_url envLoop (strBytes "https://s.example/") 2 (by decide)⟩

/-- Claim C5: when static canonicalization does not match and the redirect
resolver returns an error, `resolveYouTubeURL` returns the original input
unchanged together with that error, with both result flags false — the
error never prevents a URL from being returned. -/
theorem resolveYouTubeURL_soft_failure (env : Nat → List Nat → Probe) (input : List Nat)
    (e : ResolveError) (hc : canonicalYouTube input = none)
    (hr : (resolveHTTP env input 10).2 = some e) :
    resolveYouTubeURL env input = (input, false, false, some e) := by
  rcases hres : resolveHTTP env input 10 with ⟨u2, err⟩
  rw [hres] at hr
  simp only at hr
  subst hr
  simp [resolveYouTubeURL, hc, hres]

/-- Claim C5, witness: the theorem applied to a non-YouTube input with the
failing oracle. -/
theorem resolveYouTubeURL_soft_failure_witness :
    canonicalYouTube (strBytes "https://example.com/x") = none ∧
    (resolveHTTP envDown (strBytes "https://example.com/x") 10).2 =
      some ResolveError.probeFailure ∧
    resolveYouTubeURL envDown (strBytes "https://example.com/x") =
      (strBytes "https://example.com/x", false, false, some ResolveError.probeFailure) :=
  ⟨by decide, by decide,
    resolveYouTubeURL_soft_failure envDown (strBytes "https://example.com/x")
      ResolveError.probeFailure (by decide) (by decide)⟩

/-- Claim C6: the hub reaches, by the interleaving
subscribe-check, finalize, subscribe-register (the two subscribe phases
take the registry lock separately in the source), a state in which the
session is terminal and the registry simultaneously holds a live
subscriber queue and a completed-download cache entry for it — the
specified invariant fails on the code. -/
theorem hub_finalized_live_and_cached :
    ∃ st : HubState, HubReachable st ∧
      "S" ∈ st.finalized ∧
      lookupA st.progressClients "S" = some [[]] ∧
      lookupA st.completedDownloads "S" = some ⟨⟨100, "done", false⟩, 0⟩ := by
  refine ⟨_, HubReachable.step (HubReachable.step (HubReachable.step HubReachable.init
      (HubStep.checkMiss _ "S" (by decide)))
      (HubStep.publish _ "S" 100 "done"))
      (HubStep.register _ "S" (by decide)), ?_, ?_, ?_⟩
  · decide
  · decide
  · decide

/-- Claim C7: a non-terminal `sendProgress` never blocks and is a pure
per-queue frame operation — the cache and the finalized history are
untouched, every other session is untouched, and on the published session
each full queue is left unchanged (the update is dropped for it) while
every non-full queue receives the update at its tail. -/
theorem sendProgress_nonterminal_fanout (st : HubState) (s : String) (progress : Int)
    (status : String) (h : progress ≠ 100) :
    (sendProgress st s progress status).completedDownloads = st.completedDownloads ∧
    (sendProgress st s progress status).finalized = st.finalized ∧
    (∀ s2, s2 ≠ s → lookupA (sendProgress st s progress status).progressClients s2 =
      lookupA st.progressClients s2) ∧
    ∀ qs, lookupA st.progressClients s = some qs →
      lookupA (sendProgress st s progress status).progressClients s =
        some (qs.map (fun q => if q.length < progressChanCap
          then q ++ [⟨progress, status, false⟩] else q)) := by
  refine ⟨?_, ?_, ?_, ?_⟩
  · simp [sendProgress, h]
  · simp [sendProgress, h]
  · intro s2 hs2
    simp only [sendProgress, if_neg h]
    exact lookupA_fanOut_ne _ _ hs2
  · intro qs hqs
    simp only [sendProgress, if_neg h]
    rw [lookupA_fanOut_self, hqs]
    simp [trySend]

/-- Claim C7, witness: the theorem applied to a session with one full and
one empty queue; the full queue drops the update, the empty one receives
it. -/
theorem sendProgress_nonterminal_fanout_witness :
    ((50 : Int) ≠ 100) ∧
    lookupA (sendProgress
        ⟨[("S", [List.replicate 10 ⟨1, "x", false⟩, []])], [], [], [], 0⟩
        "S" 50 "half").progressClients "S" =
      some [List.replicate 10 ⟨1, "x", false⟩, [⟨50, "half", false⟩]] := by
  constructor
  · decide
  · have h := (sendProgress_nonterminal_fanout
      ⟨[("S", [List.replicate 10 ⟨1, "x", false⟩, []])], [], [], [], 0⟩ "S" 50 "half"
      (by decide)).2.2.2 [List.replicate 10 ⟨1, "x", false⟩, []] (by decide)
    rw [h]
    decide

/-- Claim C8: the short link `https://youtu.be/abc123` canonicalizes to
the long-form watch URL whose query holds exactly the target id parameter
`v=abc123` and nothing else. -/
theorem canonicalYouTube_shortlink :
    canonicalYouTube (strBytes "https://youtu.be/abc123") =
      some (strBytes "https://www.youtube.com/watch?v=abc123") ∧
    (parseURL (strBytes "https://www.youtube.com/watch?v=abc123")).map
        (fun r => parseQuery r.rawQuery) =
      some [(strBytes "v", strBytes "abc123")] := by
  decide

/-- Claim C2: the canonicalizer is idempotent — whenever
`canonicalYouTube` maps an input to a canonical URL, applying it to that
canonical URL returns the same canonical URL again. -/
theorem canonicalYouTube_idem (u c : List Nat) (h : canonicalYouTube u = some c) :
    canonicalYouTube c = some c := by
  obtain ⟨id, t, hid, rfl⟩ := canonicalYouTube_watch_shape u c h
  exact canonical_watchURL id t hid

/-- Claim C2, witness: idempotence applied to a concrete short link. -/
theorem canonicalYouTube_idem_witness :
    canonicalYouTube (strBytes "https://youtu.be/idem123") =
      some (strBytes "https://www.youtube.com/watch?v=idem123") ∧
    canonicalYouTube (strBytes "https://www.youtube.com/watch?v=idem123") =
      some (strBytes "https://www.youtube.com/watch?v=idem123") :=
  ⟨by decide, canonicalYouTube_idem (strBytes "https://youtu.be/idem123") _ (by decide)⟩

/-- Claim C10: every canonical URL produced by `canonicalYouTube` parses
back to scheme `https`, host `www.youtube.com`, path `/watch`, no
fragment, and a query whose keys all lie in the set containing `v` and
`t`, with the `v` value present and non-empty. -/
theorem canonicalYouTube_output_shape (u c : List Nat) (h : canonicalYouTube u = some c) :
    ∃ r : GoURL, parseURL c = some r ∧
      r.scheme = strBytes "https" ∧ r.host = strBytes "www.youtube.com" ∧
      r.path = strBytes "/watch" ∧ r.fragment = [] ∧
      (∀ p ∈ parseQuery r.rawQuery, p.1 = strBytes "v" ∨ p.1 = strBytes "t") ∧
      valsGet (parseQuery r.rawQuery) (strBytes "v") ≠ [] := by
  obtain ⟨id, t, hid, rfl⟩ := canonicalYouTube_watch_shape u c h
  refine ⟨_, parseURL_watchURL id t, rfl, rfl, rfl, rfl, ?_, ?_⟩
  · intro p hp
    by_cases ht : t = []
    · subst ht
      rw [parseQuery_watchQuery_nil] at hp
      simp only [List.mem_singleton] at hp
      subst hp
      exact Or.inl rfl
    · rw [parseQuery_watchQuery_cons id t ht] at hp
      rcases List.mem_cons.mp hp with hp | hp
      · subst hp
        exact Or.inr rfl
      · rcases List.mem_cons.mp hp with hp | hp
        · subst hp
          exact Or.inl rfl
        · simp at hp
  · by_cases ht : t = []
    · subst ht
      rw [parseQuery_watchQuery_nil, valsGet_cons_self]
      simpa using hid
    · rw [parseQuery_watchQuery_cons id t ht,
        valsGet_cons_ne _ _ _ _ (by decide), valsGet_cons_self]
      simpa using hid

/-- Claim C10, witness: the shape invariant applied to a concrete short
link carrying a time parameter. -/
theorem canonicalYouTube_output_shape_witness :
    canonicalYouTube (strBytes "https://youtu.be/shape?t=9") =
      some (strBytes "https://www.youtube.com/watch?t=9&v=shape") ∧
    (∃ r : GoURL, parseURL (strBytes "https://www.youtube.com/watch?t=9&v=shape") = some r ∧
      r.scheme = strBytes "https" ∧ r.host = strBytes "www.youtube.com" ∧
      r.path = strBytes "/watch" ∧ r.fragment = [] ∧
      (∀ p ∈ parseQuery r.rawQuery, p.1 = strBytes "v" ∨ p.1 = strBytes "t") ∧
      valsGet (parseQuery r.rawQuery) (strBytes "v") ≠ []) :=
  ⟨by decide,
    canonicalYouTube_output_shape (strBytes "https://youtu.be/shape?t=9") _ (by decide)⟩

/-- Claim C9: a watch URL carrying playlist and tracking parameters
canonicalizes to the watch URL retaining only the target id, with the
`list` and `si` parameters stripped. -/
theorem canonicalYouTube_strips_tracking :
    canonicalYouTube (strBytes "https://www.youtube.com/watch?v=abc123&list=PL1&si=xyz") =
      some (strBytes "https://www.youtube.com/watch?v=abc123") ∧
    (parseQuery (strBytes "v=abc123")).map (fun p => p.1) = [strBytes "v"] := by
  decide

end GoYtdown
